import Mathlib

/-!
Verification of the VLP-16 live viewer core (`vlp16_qt_live.py`):
the packet decoder `parse_packet`, the polar-to-Cartesian projector
`polar_to_cartesian`, and the bounded rotation-history buffer kept in
`MainWindow.update`.  Machine bytes are modelled as natural numbers,
exact azimuth arithmetic as rationals, and the floating-point geometry
as real numbers.
-/

namespace VeloVLP

/-! ### Constants from the source -/

/-- Number of rotations to persist points (`ROTATION_LIMIT = 40000`). -/
def ROTATION_LIMIT : ℕ := 40000

/-- Size of a complete VLP-16 packet (`PACKET_SIZE = 1206`). -/
def PACKET_SIZE : ℕ := 1206

/-- Size of a single block in bytes (`BLOCK_SIZE = 100`). -/
def BLOCK_SIZE : ℕ := 100

/-- Number of blocks in a single packet (`NUM_BLOCKS = 12`). -/
def NUM_BLOCKS : ℕ := 12

/-- Number of channels per block (`CHANNELS_PER_BLOCK = 32`). -/
def CHANNELS_PER_BLOCK : ℕ := 32

/-- Offset of the rotation angle within a block (`ROTATION_ANGLE_OFFSET = 2`). -/
def ROTATION_ANGLE_OFFSET : ℕ := 2

/-- Vertical angles for VLP-16 in degrees (`vertical_angles`). -/
def vertical_angles : List ℤ :=
  [-15, 1, -13, 3, -11, 5, -9, 7, -7, 9, -5, 11, -3, 13, -1, 15]

/-! ### Packet decoder (`parse_packet`) -/

/-- `struct.unpack_from('<H', data, o)`: the unsigned little-endian 16-bit
integer formed by bytes `o` and `o+1`. -/
def u16le (data : List ℕ) (o : ℕ) : ℕ :=
  data.getD o 0 + 256 * data.getD (o + 1) 0

/-- One channel entry as appended by `parse_packet`:
`(distance, reflectivity, azimuth)`. -/
abbrev ChannelSample : Type := ℕ × ℕ × ℚ

/-- One decoded block: the list of its 32 channel entries. -/
abbrev Block : Type := List ChannelSample

/-- The successful branch of `parse_packet`'s per-block loop at index `i`:
the shared azimuth read at `offset + ROTATION_ANGLE_OFFSET` divided by 100,
and the 32 channel entries read 3 bytes apart starting at `offset + 4`. -/
def decodedBlock (data : List ℕ) (i : ℕ) : Block :=
  let offset := i * BLOCK_SIZE
  let azimuth : ℚ := (u16le data (offset + ROTATION_ANGLE_OFFSET) : ℚ) / 100
  (List.range CHANNELS_PER_BLOCK).map (fun j =>
    let channel_offset := offset + 4 + j * 3
    (u16le data channel_offset, data.getD (channel_offset + 2) 0, azimuth))

/-- The body of `parse_packet`'s per-block loop at index `i`: `none` when the
2-byte header does not equal `b'\xff\xee'` (the `continue` branch), otherwise
the decoded block with its shared azimuth. -/
def parseBlock (data : List ℕ) (i : ℕ) : Option Block :=
  if (data.drop (i * BLOCK_SIZE)).take 2 ≠ [0xff, 0xee] then none
  else some (decodedBlock data i)

/-- `parse_packet`: `none` when the input is not exactly 1206 bytes, else the
blocks produced by the loop (bad-header blocks are skipped). -/
def parse_packet (data : List ℕ) : Option (List Block) :=
  if data.length ≠ PACKET_SIZE then none
  else some ((List.range NUM_BLOCKS).filterMap (parseBlock data))

/-! ### Projector (`polar_to_cartesian`) -/

/-- `math.radians`: degrees to radians. -/
noncomputable def radians (x : ℝ) : ℝ := x * (Real.pi / 180)

/-- `polar_to_cartesian(distance, horizontal_angle, vertical_angle)`:
returns `(x, y, z, scaled_distance)`. -/
noncomputable def polar_to_cartesian (distance horizontal_angle vertical_angle : ℝ) :
    ℝ × ℝ × ℝ × ℝ :=
  let horizontal_angle_rad := radians horizontal_angle
  let vertical_angle_rad := radians vertical_angle
  let scaled_distance := distance / 200
  (scaled_distance * Real.cos vertical_angle_rad * Real.cos horizontal_angle_rad,
   scaled_distance * Real.cos vertical_angle_rad * Real.sin horizontal_angle_rad,
   scaled_distance * Real.sin vertical_angle_rad,
   scaled_distance)

/-- The projection step of `MainWindow.update` for one channel entry:
look up `vertical_angles[channel_index % 16]` and call `polar_to_cartesian`. -/
noncomputable def projectSample (distance : ℕ) (azimuth : ℚ) (channel_index : ℕ) :
    ℝ × ℝ × ℝ × ℝ :=
  polar_to_cartesian (distance : ℝ) ((azimuth : ℝ))
    ((vertical_angles.getD (channel_index % 16) 0 : ℤ) : ℝ)

/-! ### Rotation buffer (`self.all_points` in `MainWindow.update`) -/

/-- One Cartesian point `(x, y, z)`. -/
abbrev Point3D : Type := ℝ × ℝ × ℝ

/-- One entry of `self.all_points`: the `(points, distances)` pair built from
one packet. -/
structure RotationBatch : Type where
  points : List Point3D
  dists : List ℝ

/-- `self.all_points.append(batch)` followed by
`if len(self.all_points) > ROTATION_LIMIT: self.all_points.pop(0)`. -/
def bufferAppend (buf : List RotationBatch) (batch : RotationBatch) :
    List RotationBatch :=
  let buf' := buf ++ [batch]
  if ROTATION_LIMIT < buf'.length then buf'.tail else buf'

/-- Sequentially append a list of batches. -/
def appendAll (buf : List RotationBatch) (bs : List RotationBatch) :
    List RotationBatch :=
  bs.foldl bufferAppend buf

/-- `np.vstack([p[0] for p in self.all_points])` paired with
`np.concatenate([p[1] for p in self.all_points])`: the oldest-to-newest
concatenation of all retained points and their scaled ranges. -/
def snapshotAll (buf : List RotationBatch) : List Point3D × List ℝ :=
  ((buf.map (fun p => p.points)).flatten, (buf.map (fun p => p.dists)).flatten)

/-! ### The per-packet update step (`MainWindow.update`) -/

/-- The batch built by `MainWindow.update`'s double loop: for every block and
every `(channel_index, (distance, reflectivity, azimuth))` in it, project and
collect the point and its scaled distance in parallel lists. -/
noncomputable def makeBatch (blocks : List Block) : RotationBatch :=
  let samples := (blocks.map (fun block =>
    block.enum.map (fun cj => projectSample cj.2.1 cj.2.2.2 cj.1))).flatten
  ⟨samples.map (fun s => (s.1, s.2.1, s.2.2.1)), samples.map (fun s => s.2.2.2)⟩

/-- One pass of `MainWindow.update` on state `(all_points, rotation_count)`
given the received datagram: datagrams shorter than 1206 bytes are ignored,
otherwise the first 1206 bytes are parsed; `if parsed_data:` is Python
truthiness, false both for `None` and for an empty block list. -/
noncomputable def updateStep (st : List RotationBatch × ℕ) (data : List ℕ) :
    List RotationBatch × ℕ :=
  if 1206 ≤ data.length then
    match parse_packet (data.take 1206) with
    | some blocks =>
        if blocks.isEmpty then st
        else (bufferAppend st.1 (makeBatch blocks), st.2 + 1)
    | none => st
  else st

/-! ### Helper lemmas -/

lemma length_bufferAppend_le (buf : List RotationBatch) (b : RotationBatch)
    (h : buf.length ≤ ROTATION_LIMIT) :
    (bufferAppend buf b).length ≤ ROTATION_LIMIT := by
  simp only [bufferAppend]
  split
  · simpa using h
  · simp only [List.length_append, List.length_cons, List.length_nil] at *
    omega

lemma bufferAppend_of_lt (buf : List RotationBatch) (b : RotationBatch)
    (h : buf.length < ROTATION_LIMIT) :
    bufferAppend buf b = buf ++ [b] := by
  simp only [bufferAppend]
  rw [if_neg]
  simp only [List.length_append, List.length_cons, List.length_nil]
  omega

lemma bufferAppend_of_full (buf : List RotationBatch) (b : RotationBatch)
    (h : buf.length = ROTATION_LIMIT) :
    bufferAppend buf b = buf.tail ++ [b] := by
  simp only [bufferAppend]
  rw [if_pos]
  · cases buf with
    | nil => simp [ROTATION_LIMIT] at h
    | cons a t => simp
  · simp only [List.length_append, List.length_cons, List.length_nil]
    omega

lemma appendAll_of_le (bs : List RotationBatch) (buf : List RotationBatch)
    (h : buf.length + bs.length ≤ ROTATION_LIMIT) :
    appendAll buf bs = buf ++ bs := by
  induction bs generalizing buf with
  | nil => simp [appendAll]
  | cons p ps ih =>
      have h1 : buf.length < ROTATION_LIMIT := by
        simp only [List.length_cons] at h; omega
      show appendAll (bufferAppend buf p) ps = buf ++ p :: ps
      rw [bufferAppend_of_lt buf p h1, ih (buf ++ [p]) (by simp at h ⊢; omega)]
      simp

/-! ### Claim theorems -/

/-- C3: for every byte sequence whose length is not exactly 1206, decode
fails (returns `none`) and produces no blocks. -/
theorem C3_size_error (data : List ℕ) (h : data.length ≠ 1206) :
    parse_packet data = none := by
  simp [parse_packet, PACKET_SIZE, h]

/-- Witness for C3 at the empty byte sequence. -/
theorem C3_size_error_witness :
    parse_packet [] = none :=
  C3_size_error [] (by decide)

/-- C6: for every distance, horizontal angle and channel index below 32, the
projection step computes `scaledRange = d / 200`, `x`, `y`, `z` by the
spherical formulas with the vertical angle taken from the 16-entry table at
`c % 16`; and distance 0 always yields the origin with `scaledRange = 0`. -/
theorem C6_projector_formula (d : ℕ) (h : ℚ) (c : ℕ) (hc : c < 32) :
    projectSample d h c =
      ((d : ℝ) / 200 *
          Real.cos (((([-15, 1, -13, 3, -11, 5, -9, 7, -7, 9, -5, 11, -3, 13, -1, 15] :
            List ℤ).getD (c % 16) 0 : ℤ) : ℝ) * (Real.pi / 180)) *
          Real.cos ((h : ℝ) * (Real.pi / 180)),
        (d : ℝ) / 200 *
          Real.cos (((([-15, 1, -13, 3, -11, 5, -9, 7, -7, 9, -5, 11, -3, 13, -1, 15] :
            List ℤ).getD (c % 16) 0 : ℤ) : ℝ) * (Real.pi / 180)) *
          Real.sin ((h : ℝ) * (Real.pi / 180)),
        (d : ℝ) / 200 *
          Real.sin (((([-15, 1, -13, 3, -11, 5, -9, 7, -7, 9, -5, 11, -3, 13, -1, 15] :
            List ℤ).getD (c % 16) 0 : ℤ) : ℝ) * (Real.pi / 180)),
        (d : ℝ) / 200)
    ∧ projectSample 0 h c = (0, 0, 0, 0) := by
  constructor
  · rfl
  · simp [projectSample, polar_to_cartesian, radians]

/-- Witness for C6 at distance 0, angle 0, channel 1. -/
theorem C6_projector_formula_witness :
    projectSample 0 (0 : ℚ) 1 = (0, 0, 0, 0) :=
  (C6_projector_formula 0 0 1 (by decide)).2

/-- C1: the buffer size never exceeds `ROTATION_LIMIT` after an append;
append puts the batch at the newest end and, once the size after insertion
exceeds the capacity, evicts exactly the single oldest batch; appending
`ROTATION_LIMIT + 1` batches to an empty buffer retains all but the first. -/
theorem C1_capacity_invariant (buf : List RotationBatch) (b : RotationBatch)
    (ps : List RotationBatch)
    (hbuf : buf.length ≤ ROTATION_LIMIT) (hps : ps.length = ROTATION_LIMIT + 1) :
    (bufferAppend buf b).length ≤ ROTATION_LIMIT
    ∧ (buf.length < ROTATION_LIMIT → bufferAppend buf b = buf ++ [b])
    ∧ (buf.length = ROTATION_LIMIT → bufferAppend buf b = buf.tail ++ [b])
    ∧ appendAll [] ps = ps.tail := by
  refine ⟨length_bufferAppend_le buf b hbuf, fun h => bufferAppend_of_lt buf b h,
    fun h => bufferAppend_of_full buf b h, ?_⟩
  have hne : ps ≠ [] := by intro hn; rw [hn] at hps; simp at hps
  have hfront : ps.dropLast.length = ROTATION_LIMIT := by
    simp [List.length_dropLast, hps]
  calc appendAll [] ps
      = appendAll [] (ps.dropLast ++ [ps.getLast hne]) := by
        rw [List.dropLast_concat_getLast hne]
    _ = bufferAppend (appendAll [] ps.dropLast) (ps.getLast hne) := by
        simp [appendAll, List.foldl_append]
    _ = bufferAppend ps.dropLast (ps.getLast hne) := by
        rw [appendAll_of_le ps.dropLast [] (by simp [hfront])]
        simp
    _ = ps.dropLast.tail ++ [ps.getLast hne] := bufferAppend_of_full _ _ hfront
    _ = (ps.dropLast ++ [ps.getLast hne]).tail := by
        cases hd : ps.dropLast with
        | nil => rw [hd] at hfront; simp [ROTATION_LIMIT] at hfront
        | cons a t => simp
    _ = ps.tail := by rw [List.dropLast_concat_getLast hne]

/-- Witness for C1: the eviction scenario at `ROTATION_LIMIT + 1` copies of
the empty batch. -/
theorem C1_capacity_invariant_witness :
    appendAll [] (List.replicate (ROTATION_LIMIT + 1) (⟨[], []⟩ : RotationBatch)) =
      (List.replicate (ROTATION_LIMIT + 1) (⟨[], []⟩ : RotationBatch)).tail :=
  (C1_capacity_invariant [] ⟨[], []⟩ _ (by simp) (by simp)).2.2.2

/-- C8: after at most `ROTATION_LIMIT` appends of single-point batches into
an empty buffer, the snapshot returns the points oldest-to-newest in append
order, with the scaled-range list paired index-for-index. -/
theorem C8_snapshot_roundtrip (samples : List (Point3D × ℝ))
    (h : samples.length ≤ ROTATION_LIMIT) :
    snapshotAll (appendAll []
        (samples.map (fun s => (⟨[s.1], [s.2]⟩ : RotationBatch)))) =
      (samples.map (fun s => s.1), samples.map (fun s => s.2)) := by
  rw [appendAll_of_le _ [] (by simpa using h), List.nil_append]
  clear h
  induction samples with
  | nil => rfl
  | cons s ss ih =>
      simp only [snapshotAll, List.map_cons, List.map_map, List.flatten_cons,
        Prod.mk.injEq] at ih ⊢
      exact ⟨by simp [ih.1], by simp [ih.2]⟩

/-- Witness for C8 at a single one-point batch at the origin. -/
theorem C8_snapshot_roundtrip_witness :
    snapshotAll (appendAll []
        ([((((0 : ℝ), (0 : ℝ), (0 : ℝ)), (0 : ℝ)))].map
          (fun s => (⟨[s.1], [s.2]⟩ : RotationBatch)))) =
      ([((0 : ℝ), (0 : ℝ), (0 : ℝ))], [(0 : ℝ)]) :=
  C8_snapshot_roundtrip [(((0, 0, 0)), 0)] (by simp [ROTATION_LIMIT])

lemma decodedBlock_eq (data : List ℕ) (i : ℕ) :
    decodedBlock data i = (List.range 32).map (fun j =>
      (u16le data (100 * i + 4 + 3 * j), data.getD (100 * i + 4 + 3 * j + 2) 0,
       (u16le data (100 * i + 2) : ℚ) / 100)) := by
  simp only [decodedBlock, BLOCK_SIZE, CHANNELS_PER_BLOCK, ROTATION_ANGLE_OFFSET]
  apply List.map_eq_map_iff.mpr
  intro j hj
  rw [show i * 100 + 4 + j * 3 = 100 * i + 4 + 3 * j from by ring,
    show i * 100 + 2 = 100 * i + 2 from by ring]

/-- An all-headers-valid 1206-byte packet with all other bytes zero. -/
def goodPkt : List ℕ :=
  (List.replicate 12 ([0xff, 0xee] ++ List.replicate 98 0)).flatten ++
    List.replicate 6 0

/-- C4: on a 1206-byte input whose 12 block headers all equal `0xFF 0xEE`,
decode returns exactly 12 blocks of exactly 32 channel entries each, block
`i` carrying azimuth `u16le(100*i + 2) / 100` and channel `j` carrying the
distance and reflectivity read at offset `100*i + 4 + 3*j`. -/
theorem C4_full_decode (data : List ℕ) (hlen : data.length = 1206)
    (hhdr : ∀ i < 12, (data.drop (100 * i)).take 2 = [0xff, 0xee]) :
    parse_packet data = some ((List.range 12).map (fun i =>
      (List.range 32).map (fun j =>
        (u16le data (100 * i + 4 + 3 * j),
         data.getD (100 * i + 4 + 3 * j + 2) 0,
         (u16le data (100 * i + 2) : ℚ) / 100))))
    ∧ ∀ bs, parse_packet data = some bs →
        bs.length = 12 ∧ ∀ b ∈ bs, b.length = 32 := by
  have hstep : (List.range NUM_BLOCKS).filterMap (parseBlock data)
      = (List.range NUM_BLOCKS).filterMap (fun i => some (decodedBlock data i)) := by
    apply List.filterMap_congr
    intro i hi
    have hi12 : i < 12 := by simpa [NUM_BLOCKS] using List.mem_range.mp hi
    have hh : (data.drop (i * BLOCK_SIZE)).take 2 = [0xff, 0xee] := by
      rw [show i * BLOCK_SIZE = 100 * i from Nat.mul_comm i 100]
      exact hhdr i hi12
    simp [parseBlock, hh]
  have hmain : parse_packet data = some ((List.range 12).map (fun i =>
      (List.range 32).map (fun j =>
        (u16le data (100 * i + 4 + 3 * j),
         data.getD (100 * i + 4 + 3 * j + 2) 0,
         (u16le data (100 * i + 2) : ℚ) / 100)))) := by
    unfold parse_packet
    rw [if_neg (by simp [hlen, PACKET_SIZE])]
    rw [hstep]
    congr 1
  refine ⟨hmain, fun bs hbs => ?_⟩
  rw [hmain] at hbs
  obtain rfl : bs = _ := (Option.some.injEq _ _).mp hbs.symm
  constructor
  · simp
  · intro b hb
    obtain ⟨i, hi, rfl⟩ := List.mem_map.mp hb
    simp

set_option maxRecDepth 100000 in
/-- Witness for C4 at the all-good-headers packet. -/
theorem C4_full_decode_witness :
    parse_packet goodPkt = some ((List.range 12).map (fun i =>
      (List.range 32).map (fun j =>
        (u16le goodPkt (100 * i + 4 + 3 * j),
         goodPkt.getD (100 * i + 4 + 3 * j + 2) 0,
         (u16le goodPkt (100 * i + 2) : ℚ) / 100)))) :=
  (C4_full_decode goodPkt (by decide) (by decide)).1

lemma filterMap_eq_map_filter {α β : Type} (p : α → Bool) (g : α → β)
    (f : α → Option β) (l : List α)
    (hf : ∀ a, f a = if p a then some (g a) else none) :
    l.filterMap f = (l.filter p).map g := by
  induction l with
  | nil => rfl
  | cons a t ih =>
      rw [List.filterMap_cons, List.filter_cons, hf a]
      by_cases hp : p a
      · simp [hp, ih]
      · simp [hp, ih]

/-- The all-zero 1206-byte packet (every block header invalid). -/
def zeroPkt : List ℕ := List.replicate 1206 0

lemma parse_packet_eq_filter (data : List ℕ) (hlen : data.length = 1206) :
    parse_packet data = some (((List.range 12).filter
        (fun i => decide ((data.drop (i * 100)).take 2 = [0xff, 0xee]))).map
      (decodedBlock data)) := by
  unfold parse_packet
  rw [if_neg (by simp [hlen, PACKET_SIZE])]
  congr 1
  rw [filterMap_eq_map_filter
    (fun i => decide ((data.drop (i * 100)).take 2 = [0xff, 0xee]))
    (decodedBlock data) (parseBlock data) (List.range NUM_BLOCKS) ?_]
  · rfl
  · intro a
    by_cases hp : (data.drop (a * 100)).take 2 = [0xff, 0xee]
    · simp [parseBlock, BLOCK_SIZE, hp]
    · simp [parseBlock, BLOCK_SIZE, hp]

/-- C5: on any 1206-byte input, decode succeeds and returns exactly the
ordered sequence of blocks whose 2-byte header equals `0xFF 0xEE`; a block
with any other header contributes nothing and does not abort the packet. -/
theorem C5_bad_header_skipped (data : List ℕ) (hlen : data.length = 1206) :
    parse_packet data = some (((List.range 12).filter
        (fun i => decide ((data.drop (i * 100)).take 2 = [0xff, 0xee]))).map
      (decodedBlock data)) :=
  parse_packet_eq_filter data hlen

/-- Witness for C5 at the all-zero packet, whose headers are all invalid. -/
theorem C5_bad_header_skipped_witness :
    parse_packet zeroPkt = some (((List.range 12).filter
        (fun i => decide ((zeroPkt.drop (i * 100)).take 2 = [0xff, 0xee]))).map
      (decodedBlock zeroPkt)) :=
  C5_bad_header_skipped zeroPkt (by unfold zeroPkt; rw [List.length_replicate])

set_option maxRecDepth 100000 in
/-- Counterexample to C2: the all-zero packet decodes successfully to an
empty block list, yet the update step appends nothing and leaves the
rotation count unchanged — the empty batch is skipped, not appended. -/
theorem C2_counterexample :
    parse_packet zeroPkt = some [] ∧ updateStep ([], 0) zeroPkt = ([], 0) := by
  have hp : parse_packet zeroPkt = some [] := by decide
  have ht : zeroPkt.take 1206 = zeroPkt := by
    unfold zeroPkt
    rw [List.take_replicate, Nat.min_self]
  have hlen : zeroPkt.length = 1206 := by
    unfold zeroPkt
    rw [List.length_replicate]
  refine ⟨hp, ?_⟩
  rw [updateStep, ht, hp]
  simp [hlen]

/-- C2 amended: a decoded packet's batch is appended and counted as one
rotation only when the decoded block list is non-empty; a packet that
decodes to an empty block list is skipped entirely (no append, no count). -/
theorem C2_append_policy (st : List RotationBatch × ℕ) (data : List ℕ)
    (hlen : 1206 ≤ data.length) (bs : List Block)
    (hp : parse_packet (data.take 1206) = some bs) :
    (bs = [] → updateStep st data = st)
    ∧ (bs ≠ [] → updateStep st data =
        (bufferAppend st.1 (makeBatch bs), st.2 + 1)) := by
  constructor
  · rintro rfl
    rw [updateStep, if_pos hlen, hp]
    rfl
  · intro hne
    rw [updateStep, if_pos hlen, hp]
    cases bs with
    | nil => exact absurd rfl hne
    | cons b t => rfl

set_option maxRecDepth 100000 in
/-- Witness for the amended C2 at the all-zero packet. -/
theorem C2_append_policy_witness :
    updateStep ([], 0) zeroPkt = ([], 0) :=
  (C2_append_policy ([], 0) zeroPkt
      (by unfold zeroPkt; rw [List.length_replicate])
      []
      (by rw [show zeroPkt.take 1206 = zeroPkt from by
            unfold zeroPkt; rw [List.take_replicate, Nat.min_self]]
          decide)).1 rfl

/-- C9: a datagram shorter than 1206 bytes leaves the state unchanged, and a
datagram of 1206 bytes or more is processed exactly as its first 1206 bytes
would be. -/
theorem C9_receive_gate (st : List RotationBatch × ℕ) (data : List ℕ) :
    (data.length < 1206 → updateStep st data = st)
    ∧ (1206 ≤ data.length → updateStep st data = updateStep st (data.take 1206)) := by
  constructor
  · intro h
    rw [updateStep, if_neg (by omega)]
  · intro h
    have h1 : (data.take 1206).length = 1206 := by
      rw [List.length_take]
      omega
    have h2 : (data.take 1206).take 1206 = data.take 1206 := by
      rw [List.take_take, Nat.min_self]
    conv_rhs => rw [updateStep]
    rw [updateStep, if_pos h, if_pos (le_of_eq h1.symm), h2]

set_option maxRecDepth 100000 in
/-- Witness for C9: a too-short datagram is dropped, and a full-length
datagram is processed from its first 1206 bytes. -/
theorem C9_receive_gate_witness :
    updateStep ([], 0) [] = ([], 0)
    ∧ updateStep ([], 0) zeroPkt = updateStep ([], 0) (zeroPkt.take 1206) :=
  ⟨(C9_receive_gate ([], 0) []).1 (by decide),
   (C9_receive_gate ([], 0) zeroPkt).2
     (by unfold zeroPkt; rw [List.length_replicate])⟩

/-- A 1206-byte packet whose first block header is valid and whose azimuth
field is `0xFFFF` (65535 hundredths of a degree), all other bytes zero. -/
def azPkt : List ℕ := 255 :: 238 :: 255 :: 255 :: List.replicate 1202 0

lemma byte_getD_lt (data : List ℕ) (hbytes : ∀ b ∈ data, b < 256) (o : ℕ) :
    data.getD o 0 < 256 := by
  rw [List.getD_eq_getElem?_getD]
  cases h : data[o]? with
  | none => simp
  | some x => simpa using hbytes x (List.getElem?_mem h)

lemma u16le_le (data : List ℕ) (hbytes : ∀ b ∈ data, b < 256) (o : ℕ) :
    u16le data o ≤ 65535 := by
  have h1 := byte_getD_lt data hbytes o
  have h2 := byte_getD_lt data hbytes (o + 1)
  unfold u16le
  omega

lemma azPkt_bytes : ∀ b ∈ azPkt, b < 256 := by
  intro b hb
  unfold azPkt at hb
  simp only [List.mem_cons, List.mem_replicate] at hb
  rcases hb with rfl | rfl | rfl | rfl | ⟨-, rfl⟩ <;> norm_num

lemma azPkt_length : azPkt.length = 1206 := by
  unfold azPkt
  simp only [List.length_cons, List.length_replicate]

set_option maxRecDepth 100000 in
lemma azPkt_parse : parse_packet azPkt = some [decodedBlock azPkt 0] := by
  rw [parse_packet_eq_filter azPkt azPkt_length,
    show (List.range 12).filter
        (fun i => decide ((azPkt.drop (i * 100)).take 2 = [0xff, 0xee])) = [0]
      from by decide]
  rfl

lemma azSample_mem :
    ((u16le azPkt 4, azPkt.getD 6 0, (u16le azPkt 2 : ℚ) / 100) : ChannelSample)
      ∈ decodedBlock azPkt 0 := by
  simp only [decodedBlock, List.mem_map]
  exact ⟨0, by simp [CHANNELS_PER_BLOCK], rfl⟩

/-- Counterexample to C7: a 1206-byte packet of genuine bytes whose decoded
block carries a channel sample with azimuth 655.35 degrees, not in
`[0, 360)`. -/
theorem C7_counterexample :
    parse_packet azPkt = some [decodedBlock azPkt 0]
    ∧ ((u16le azPkt 4, azPkt.getD 6 0, (u16le azPkt 2 : ℚ) / 100) : ChannelSample)
        ∈ decodedBlock azPkt 0
    ∧ ¬((u16le azPkt 2 : ℚ) / 100 < 360) := by
  refine ⟨azPkt_parse, azSample_mem, ?_⟩
  rw [show u16le azPkt 2 = 65535 from by decide]
  norm_num

/-- C7 amended: for byte-valued 1206-byte inputs, every azimuth carried by a
decoded block lies in `[0, 655.35]` (that is, `[0, 65535/100]`), the range
of an unvalidated unsigned 16-bit field divided by 100 — not `[0, 360)`. -/
theorem C7_azimuth_bounds (data : List ℕ) (hbytes : ∀ b ∈ data, b < 256)
    (bs : List Block) (hp : parse_packet data = some bs)
    (b : Block) (hb : b ∈ bs) (c : ChannelSample) (hc : c ∈ b) :
    0 ≤ c.2.2 ∧ c.2.2 ≤ 65535 / 100 := by
  unfold parse_packet at hp
  by_cases hl : data.length = PACKET_SIZE
  case neg => rw [if_pos hl] at hp; exact absurd hp (by simp)
  rw [if_neg (not_not_intro hl)] at hp
  obtain rfl : bs = _ := ((Option.some.injEq _ _).mp hp).symm
  obtain ⟨i, hi, hpb⟩ := List.mem_filterMap.mp hb
  unfold parseBlock at hpb
  by_cases hh : (data.drop (i * BLOCK_SIZE)).take 2 = [0xff, 0xee]
  case neg => rw [if_pos hh] at hpb; exact absurd hpb (by simp)
  rw [if_neg (not_not_intro hh)] at hpb
  obtain rfl : b = decodedBlock data i := ((Option.some.injEq _ _).mp hpb).symm
  simp only [decodedBlock, List.mem_map] at hc
  obtain ⟨j, hj, rfl⟩ := hc
  constructor
  · positivity
  · have hle := u16le_le data hbytes (i * BLOCK_SIZE + ROTATION_ANGLE_OFFSET)
    show (u16le data (i * BLOCK_SIZE + ROTATION_ANGLE_OFFSET) : ℚ) / 100 ≤ 65535 / 100
    gcongr
    exact_mod_cast hle

/-- Witness for the amended C7 at the high-azimuth packet. -/
theorem C7_azimuth_bounds_witness :
    (0 : ℚ) ≤ (u16le azPkt 2 : ℚ) / 100
    ∧ (u16le azPkt 2 : ℚ) / 100 ≤ 65535 / 100 :=
  C7_azimuth_bounds azPkt azPkt_bytes [decodedBlock azPkt 0] azPkt_parse
    (decodedBlock azPkt 0) (by simp) _ azSample_mem

lemma getD_eq_of_take_eq {l1 l2 : List ℕ} {n : ℕ} (h : l1.take n = l2.take n)
    {o : ℕ} (ho : o < n) :
    l1.getD o 0 = l2.getD o 0 := by
  rw [List.getD_eq_getElem?_getD, List.getD_eq_getElem?_getD,
    ← List.getElem?_take_of_lt (l := l1) ho, ← List.getElem?_take_of_lt (l := l2) ho, h]

lemma u16le_eq_of_take_eq {l1 l2 : List ℕ} {n : ℕ} (h : l1.take n = l2.take n)
    {o : ℕ} (ho : o + 1 < n) :
    u16le l1 o = u16le l2 o := by
  unfold u16le
  rw [getD_eq_of_take_eq h (by omega), getD_eq_of_take_eq h (by omega)]

lemma take_two_drop_eq_of_take_eq {l1 l2 : List ℕ} {n : ℕ}
    (h : l1.take n = l2.take n) {o : ℕ} (ho : o + 2 ≤ n) :
    (l1.drop o).take 2 = (l2.drop o).take 2 := by
  rw [List.take_drop o 2 l1, List.take_drop o 2 l2]
  have e1 : (l1.take n).take (o + 2) = l1.take (o + 2) := by
    rw [List.take_take, Nat.min_eq_left ho]
  have e2 : (l2.take n).take (o + 2) = l2.take (o + 2) := by
    rw [List.take_take, Nat.min_eq_left ho]
  rw [← e1, ← e2, h]

/-- C10: decode reads only the first 1200 bytes; two 1206-byte inputs that
agree on bytes 0..1199 decode to identical block sequences (the trailing 6
bytes are never read). -/
theorem C10_trailing_bytes_ignored (d1 d2 : List ℕ)
    (h1 : d1.length = 1206) (h2 : d2.length = 1206)
    (hagree : d1.take 1200 = d2.take 1200) :
    parse_packet d1 = parse_packet d2 := by
  unfold parse_packet
  rw [if_neg (by simp [h1, PACKET_SIZE]), if_neg (by simp [h2, PACKET_SIZE])]
  congr 1
  apply List.filterMap_congr
  intro i hi
  have hi12 : i < 12 := by simpa [NUM_BLOCKS] using List.mem_range.mp hi
  unfold parseBlock
  rw [take_two_drop_eq_of_take_eq hagree
    (show i * BLOCK_SIZE + 2 ≤ 1200 by simp only [BLOCK_SIZE]; omega)]
  by_cases hh : (d2.drop (i * BLOCK_SIZE)).take 2 = [0xff, 0xee]
  · rw [if_neg (not_not_intro hh), if_neg (not_not_intro hh)]
    congr 1
    simp only [decodedBlock]
    apply List.map_eq_map_iff.mpr
    intro j hj
    have hj32 : j < 32 := by
      simpa [CHANNELS_PER_BLOCK] using List.mem_range.mp hj
    have e1 : u16le d1 (i * BLOCK_SIZE + 4 + j * 3)
        = u16le d2 (i * BLOCK_SIZE + 4 + j * 3) :=
      u16le_eq_of_take_eq hagree (by simp only [BLOCK_SIZE]; omega)
    have e2 : d1.getD (i * BLOCK_SIZE + 4 + j * 3 + 2) 0
        = d2.getD (i * BLOCK_SIZE + 4 + j * 3 + 2) 0 :=
      getD_eq_of_take_eq hagree (by simp only [BLOCK_SIZE]; omega)
    have e3 : u16le d1 (i * BLOCK_SIZE + ROTATION_ANGLE_OFFSET)
        = u16le d2 (i * BLOCK_SIZE + ROTATION_ANGLE_OFFSET) :=
      u16le_eq_of_take_eq hagree
        (by simp only [BLOCK_SIZE, ROTATION_ANGLE_OFFSET]; omega)
    rw [e1, e2, e3]
  · rw [if_pos hh, if_pos hh]

/-- A packet agreeing with `zeroPkt` on the first 1200 bytes but with a
different 6-byte tail. -/
def tailPkt : List ℕ := List.replicate 1200 0 ++ List.replicate 6 7

lemma tailPkt_length : tailPkt.length = 1206 := by
  unfold tailPkt
  rw [List.length_append, List.length_replicate, List.length_replicate]

lemma zeroPkt_tailPkt_agree : zeroPkt.take 1200 = tailPkt.take 1200 := by
  unfold zeroPkt tailPkt
  rw [List.take_replicate,
    List.take_append_of_le_length (by rw [List.length_replicate]),
    List.take_replicate, Nat.min_self]
  norm_num

/-- Witness for C10: the all-zero packet and the nonzero-tail packet decode
identically. -/
theorem C10_trailing_bytes_ignored_witness :
    parse_packet zeroPkt = parse_packet tailPkt :=
  C10_trailing_bytes_ignored zeroPkt tailPkt
    (by unfold zeroPkt; rw [List.length_replicate])
    tailPkt_length
    zeroPkt_tailPkt_agree

end VeloVLP
